import Mathlib

/-!
# Verification of the hdr-conversion gain-map pipeline

A shallow embedding, in Lean 4, of the numeric and byte-level core of the
hdr-conversion repository: tone-reproduction-curve evaluation and inversion
(`exp/icc_inspect.py`), the matrix colour engine (`exp/icc_inspect.py`),
the ISO 21496 gain-map decode formula (`src/hdr_conversion/iso21496/calculate.py`,
`src/hdrconv/convert.py`), the gain-map encode statistics (`src/hdrconv/convert.py`),
the Apple maker-note headroom computation (`apple_heic/headroom.py`), and the
Ultra HDR JPEG container splitter and metadata extractor (`img_input/ultrahdr.py`).

Machine floats are idealised as real numbers; byte buffers are lists of
naturals; external collaborators (the image codec, the XML parser, `np.log2`)
are passed in as explicit parameters.
-/

namespace HdrConv

/-- `np.clip(x, lo, hi)`: clamp `x` into `[lo, hi]`. -/
noncomputable def clip (x lo hi : ℝ) : ℝ := min (max x lo) hi

theorem clip_eq_self {x lo hi : ℝ} (h0 : lo ≤ x) (h1 : x ≤ hi) : clip x lo hi = x := by
  simp [clip, max_eq_left h0, min_eq_left h1]

theorem clip_le {x lo hi : ℝ} : clip x lo hi ≤ hi := min_le_right _ _

theorem le_clip {x lo hi : ℝ} (h : lo ≤ hi) : lo ≤ clip x lo hi :=
  le_min (le_max_right _ _) h

/-! ## Tone reproduction curves (`exp/icc_inspect.py`)

The parser `ICCParser._parse_trc` produces a dictionary tagged by `"type"`:
`Linear` (curv with 0 points), `Gamma` (curv with 1 point), `Curve` (sampled
curv), `Parametric` (para tag, function type + parameter list), or an
unrecognised four-character signature, kept verbatim.  We embed the tag as an
inductive; the absent curve (`{}` / `None` in Python) is `Option.none`. -/

inductive TRC where
  | Linear : TRC
  | Gamma (gamma : ℝ) : TRC
  | Curve (values : List ℝ) : TRC
  | Parametric (function_type : ℕ) (params : List ℝ) : TRC
  | Unknown (sig : String) : TRC

/-- `apply_trc(value, trc)` from `exp/icc_inspect.py`: clip the input to
`[0,1]`, then apply the forward tone curve.  Unrecognised variants and
parametric records with too few parameters fall through to the clipped
input. -/
noncomputable def apply_trc (trc : Option TRC) (value : ℝ) : ℝ :=
  let v := clip value 0 1
  match trc with
  | none => v
  | some .Linear => v
  | some (.Gamma g) => v ^ g
  | some (.Curve values) =>
      let n := values.length
      if n = 0 then v
      else
        let idx := v * ((n : ℝ) - 1)
        let i0 := ⌊idx⌋₊
        let i1 := min (i0 + 1) (n - 1)
        let frac := idx - (i0 : ℝ)
        values.getD i0 0 * (1 - frac) + values.getD i1 0 * frac
  | some (.Parametric 0 (g :: _)) => v ^ g
  | some (.Parametric 1 (g :: a :: b :: _)) =>
      if -b / a ≤ v then (a * v + b) ^ g else 0
  | some (.Parametric 3 (g :: a :: b :: c :: d :: _)) =>
      if d ≤ v then (a * v + b) ^ g else c * v
  | some (.Parametric _ _) => v
  | some (.Unknown _) => v

/-- `inverse_trc(value, trc)` from `exp/icc_inspect.py`: clip the input to
`[0,1]`, then apply the inverse curve.  Only `Gamma` and parametric types 0
and 3 have inverse branches; everything else (including `Curve` and
parametric type 1) falls through to the clipped input. -/
noncomputable def inverse_trc (trc : Option TRC) (value : ℝ) : ℝ :=
  let v := clip value 0 1
  match trc with
  | none => v
  | some .Linear => v
  | some (.Gamma g) => if 0 < g then v ^ (1 / g) else v
  | some (.Parametric 0 (g :: _)) => if 0 < g then v ^ (1 / g) else v
  | some (.Parametric 3 (g :: a :: b :: c :: d :: _)) =>
      let threshold := if 0 < g then (a * d + b) ^ g else 0
      if threshold ≤ v then
        if a ≠ 0 ∧ 0 < g then ((v ^ (1 / g)) - b) / a else v
      else
        if c ≠ 0 then v / c else v
  | some _ => v

/-! ## Apple maker-note headroom (`apple_heic/headroom.py`,
`src/hdr_conversion/utils/metadata.py`)

`AppleHDRMetadata.compute_headroom` requires both maker note fields; modelling
"both present" by taking them as arguments. -/

/-- `AppleHDRMetadata.compute_headroom`: piecewise-linear stop estimate from
maker notes 33 and 48, floored at zero stops, then exponentiated. -/
noncomputable def compute_headroom (maker33 maker48 : ℝ) : ℝ :=
  let stops :=
    if maker33 < 1.0 then
      if maker48 ≤ 0.01 then -20.0 * maker48 + 1.8 else -0.101 * maker48 + 1.601
    else
      if maker48 ≤ 0.01 then -70.0 * maker48 + 3.0 else -0.303 * maker48 + 2.303
  (2 : ℝ) ^ max stops 0

/-! ## ISO 21496 gain-map decode (`src/hdr_conversion/iso21496/calculate.py`
`to_alternate`; the same per-channel arithmetic appears in
`src/hdrconv/convert.py` `gainmap_to_hdr`)

The numpy code is elementwise over pixels and channels (after the external
bilinear resize); we embed the per-channel scalar computation. -/

/-- One channel of the ISO 21496 gain-map metadata record. -/
structure GainmapChannelMeta where
  gainmap_min : ℝ
  gainmap_max : ℝ
  gainmap_gamma : ℝ
  baseline_offset : ℝ
  alternate_offset : ℝ

/-- Per-channel body of `to_alternate`: clip the gain sample, apply the
gain-map gamma, remap into `[min, max]`, exponentiate (`np.exp2`) and apply
to the offset baseline. -/
noncomputable def to_alternate_channel (md : GainmapChannelMeta) (baseline gain : ℝ) : ℝ :=
  let g0 := clip gain 0 1
  let g1 := g0 ^ md.gainmap_gamma
  let g2 := g1 * (md.gainmap_max - md.gainmap_min) + md.gainmap_min
  (2 : ℝ) ^ g2 * (baseline + md.baseline_offset) - md.alternate_offset

/-! ## Matrix colour engine (`exp/icc_inspect.py`, class `ColorEngine`)

`np.linalg.inv` is idealised as the Mathlib nonsingular inverse (they agree on
invertible matrices); a raised `ValueError` becomes `Except.error` carrying the
Python message.  The constructor stores `chad_inv = inv(chad)` /
`rgb_matrix_inv = inv(rgb_matrix)` when the matrices are present, which is what
the two conversion methods test. -/

abbrev Vec3 := Fin 3 → ℝ
abbrev Mat3 := Matrix (Fin 3) (Fin 3) ℝ

/-- State of `ColorEngine` as built by `__init__`: optional chromatic
adaptation matrix, optional colorant matrix, optional TRC record. -/
structure ColorEngine where
  chad : Option Mat3
  rgb_matrix : Option Mat3
  trc : Option TRC

/-- `ColorEngine.rgb_to_xyz_matrix(rgb, apply_trc_flag)`: optionally linearise
through the TRC, multiply by the colorant matrix, then by the inverse
chromatic-adaptation matrix when one is available.  A missing colorant matrix
raises `ValueError("RGB matrix not available")`. -/
noncomputable def rgb_to_xyz_matrix (e : ColorEngine) (rgb : Vec3)
    (apply_trc_flag : Bool) : Except String Vec3 :=
  match e.rgb_matrix with
  | none => .error "RGB matrix not available"
  | some M =>
      let rgb_arr := if apply_trc_flag && e.trc.isSome
        then fun i => apply_trc e.trc (rgb i) else rgb
      let xyz_d50 := M.mulVec rgb_arr
      match e.chad with
      | some C => .ok ((C⁻¹).mulVec xyz_d50)
      | none => .ok xyz_d50

/-- `ColorEngine.xyz_to_rgb_matrix(xyz_device, apply_inverse_trc)`: adapt to
D50 when a chad matrix is available, apply the inverse colorant matrix, clip
to `[0,1]`, optionally apply the inverse TRC (and clip again).  A missing
colorant matrix raises `ValueError("RGB matrix not available")`. -/
noncomputable def xyz_to_rgb_matrix (e : ColorEngine) (xyz_device : Vec3)
    (apply_inverse_trc : Bool) : Except String Vec3 :=
  match e.rgb_matrix with
  | none => .error "RGB matrix not available"
  | some M =>
      let xyz_d50 := match e.chad with
        | some C => C.mulVec xyz_device
        | none => xyz_device
      let rgb_linear := fun i => clip ((M⁻¹).mulVec xyz_d50 i) 0 1
      if apply_inverse_trc && e.trc.isSome then
        .ok (fun i => clip (inverse_trc e.trc (rgb_linear i)) 0 1)
      else
        .ok rgb_linear

/-! ## Gain-map encode statistics (`src/hdrconv/convert.py`, `hdr_to_gainmap`)

The pixel raster is flattened to a list of per-channel samples (the numpy code
is elementwise / order-independent for everything we state).  `np.log2` is
idealised as `Real.logb 2`, `np.percentile` (default linear interpolation) is
embedded directly. -/

/-- `np.percentile(xs, q)` with the default linear interpolation method: sort,
take `h = q/100 * (n-1)`, and blend the two neighbouring order statistics. -/
noncomputable def percentile (xs : List ℝ) (q : ℝ) : ℝ :=
  let s := List.insertionSort (· ≤ ·) xs
  let n := xs.length
  let h := q / 100 * ((n : ℝ) - 1)
  let i0 := ⌊h⌋₊
  let lo := s.getD i0 0
  let hi := s.getD (min (i0 + 1) (n - 1)) 0
  lo + (h - (i0 : ℝ)) * (hi - lo)

/-- Baseline derivation when none is supplied: Reinhard tone-map `x/(1+x)`,
scaled to 8 bits, clipped and truncated to `uint8` (`astype(np.uint8)`). -/
noncomputable def reinhard_baseline_u8 (hdr_data : List ℝ) : List ℕ :=
  hdr_data.map fun x => ⌊clip (x / (1 + x) * 255) 0 255⌋₊

/-- The per-pixel log2 gain values of `hdr_to_gainmap`:
`log2(clip((hdr+ε)/(baseline_norm+ε), ε, 1000))` with `ε = 1e-6`. -/
noncomputable def gainmap_log_list (hdr_data baseline_norm : List ℝ) : List ℝ :=
  List.zipWith
    (fun h b => Real.logb 2 (clip ((h + 1e-6) / (b + 1e-6)) 1e-6 1000))
    hdr_data baseline_norm

/-- The log2 gain samples produced by `hdr_to_gainmap`, including the Reinhard
baseline fallback when no baseline is supplied. -/
noncomputable def hdr_to_gainmap_logs (hdr_data : List ℝ) (baseline : Option (List ℕ)) :
    List ℝ :=
  let base := baseline.getD (reinhard_baseline_u8 hdr_data)
  gainmap_log_list hdr_data (base.map fun v => (v : ℝ) / 255)

/-- The `(gainmap_min, gainmap_max)` pair declared by `hdr_to_gainmap`:
1st and 99th percentiles of the log2 gain samples. -/
noncomputable def hdr_to_gainmap_range (hdr_data : List ℝ) (baseline : Option (List ℕ)) :
    ℝ × ℝ :=
  let logs := hdr_to_gainmap_logs hdr_data baseline
  (percentile logs 1, percentile logs 99)

/-! ## Ultra HDR JPEG container (`img_input/ultrahdr.py`)

Byte buffers are lists of naturals (each below 256 in practice; nothing we
prove needs the bound).  `bytes.find(sub, start[, stop])` is the leftmost
position of a full occurrence of `sub` inside the slice. -/

/-- `pat` occurs in `data` at position `i`. -/
def isMatch (data : List ℕ) (i : ℕ) (pat : List ℕ) : Prop :=
  (data.drop i).take pat.length = pat

instance decIsMatch (data : List ℕ) (i : ℕ) (pat : List ℕ) : Decidable (isMatch data i pat) :=
  inferInstanceAs (Decidable ((data.drop i).take pat.length = pat))

/-- `data.find(pat, start, stop)` (Python `bytes.find` with an end bound):
leftmost `i ≥ start` with a full match contained in `[start, stop)`. -/
def findBetween (pat data : List ℕ) (start stop : ℕ) : Option ℕ :=
  (List.range' start (stop - start)).find? fun i =>
    decide (isMatch data i pat ∧ i + pat.length ≤ stop)

/-- `data.find(pat, start)` (Python `bytes.find`): leftmost match position at
or after `start`, `none` when absent. -/
def findFrom (pat data : List ℕ) (start : ℕ) : Option ℕ :=
  (List.range' start (data.length - start)).find? fun i => decide (isMatch data i pat)

/-- The `while True` scan of `extract_ultrahdr_data`: find a start-of-image
marker, then the first end-of-image marker after it, slice the sub-stream and
continue past it.  Each round moves the offset forward by at least four bytes,
so `data.length + 1` rounds of fuel are never exhausted. -/
def scanStreams (data : List ℕ) : ℕ → ℕ → List (List ℕ)
  | 0, _ => []
  | fuel + 1, off =>
    match findFrom [255, 216] data off with
    | none => []
    | some soi =>
      match findFrom [255, 217] data (soi + 2) with
      | none => []
      | some eoi =>
          (data.drop soi).take (eoi + 2 - soi) :: scanStreams data fuel (eoi + 2)

/-- All `0xFFD8 ... 0xFFD9` sub-streams of a buffer, scanned left to right. -/
def splitStreams (data : List ℕ) : List (List ℕ) :=
  scanStreams data (data.length + 1) 0

/-- Inner loop of `extract_app_segments` for one application marker: find the
marker before the start-of-scan limit, read the big-endian segment length
(which counts its own two bytes), keep the payload when it fits, and continue
two bytes past the marker. -/
def appSegLoop (marker data : List ℕ) (stop : ℕ) : ℕ → ℕ → List (List ℕ)
  | 0, _ => []
  | fuel + 1, offset =>
    match findBetween marker data offset stop with
    | none => []
    | some pos =>
      let rest := appSegLoop marker data stop fuel (pos + 2)
      if pos + 4 ≤ data.length then
        let segLen := 256 * data.getD (pos + 2) 0 + data.getD (pos + 3) 0
        let payloadLen := segLen - 2
        if 0 < payloadLen ∧ pos + 4 + payloadLen ≤ data.length then
          (data.drop (pos + 4)).take payloadLen :: rest
        else rest
      else rest

/-- `extract_app_segments` for one marker kind (`[255,225]` = APP1,
`[255,226]` = APP2): payloads of each segment whose marker lies before the
start-of-scan marker `0xFFDA` (or anywhere when there is no SOS). -/
def extract_app_segments (marker jpeg : List ℕ) : List (List ℕ) :=
  let stop := (findFrom [255, 218] jpeg 0).getD jpeg.length
  appSegLoop marker jpeg stop (jpeg.length + 1) 0

/-! ## Gain-map metadata extraction (`parse_gain_map_metadata`)

The `xml.etree` parser is an external collaborator; its outcome on a payload
is passed in: `none` models a parse failure (`ET.ParseError` and friends,
caught by the function), `some none` a document without an `rdf:Description`
element, `some (some attrs)` the attribute list of the first
`rdf:Description`, keys in `\x7bnamespace\x7dLocal` expanded form. -/
abbrev XmlParseOutcome := Option (Option (List (String × String)))

/-- A decoded XMP attribute value: Python `float` / `int` / `bool` / `str`
(floats idealised as rationals). -/
inductive MetaValue where
  | num (q : ℚ)
  | int (n : ℤ)
  | bool (b : Bool)
  | str (s : String)
deriving DecidableEq

/-- Value of an unsigned digit string. -/
def digitsVal (s : String) : ℕ :=
  s.foldl (fun acc c => acc * 10 + (c.toNat - 48)) 0

/-- Simplified model of Python `float()` on plain decimal strings
(`[+-]digits.digits`). -/
def parseDecimal? (s : String) : Option ℚ :=
  let core := fun (t : String) =>
    match t.split (· = '.') with
    | [ip, fp] =>
        if ip.all Char.isDigit ∧ fp.all Char.isDigit ∧ ip.length + fp.length ≠ 0 then
          some ((digitsVal ip : ℚ) + (digitsVal fp : ℚ) / (10 : ℚ) ^ fp.length)
        else none
    | _ => none
  if s.startsWith "-" then (core (s.drop 1)).map (fun q => -q)
  else if s.startsWith "+" then core (s.drop 1)
  else core s

/-- Attribute-value coercion of `parse_gain_map_metadata`: strings with a dot
try `float`, others try `int`; on failure, case-insensitive `"true"/"false"`
become booleans, anything else stays a string. -/
def coerceValue (value : String) : MetaValue :=
  let fallback :=
    if value.toLower = "true" then .bool true
    else if value.toLower = "false" then .bool false
    else .str value
  if value.contains '.' then
    match parseDecimal? value with
    | some q => .num q
    | none => fallback
  else
    match value.toInt? with
    | some n => .int n
    | none => fallback

/-- Python `str.startswith`, character-wise. -/
def strStartsWith (p s : String) : Bool := p.data.isPrefixOf s.data

/-- The expanded-name prefix of the gain-map XML namespace. -/
def hdrgmPrefix : String := "\x7bhttp://ns.adobe.com/hdr-gain-map/1.0/\x7d"

/-- `parse_gain_map_metadata(xmp_data)` applied to the XML parse outcome:
collect the `hdrgm`-namespaced attributes of the first `rdf:Description`,
coerce their values, and keep the result only when some local name starts
with `GainMap`; every failure path returns the empty record. -/
def parse_gain_map_metadata (parsed : XmlParseOutcome) : List (String × MetaValue) :=
  match parsed with
  | none => []
  | some none => []
  | some (some attrs) =>
    let metadata := attrs.filterMap fun kv =>
      if strStartsWith hdrgmPrefix kv.1 then
        some (kv.1.drop hdrgmPrefix.length, coerceValue kv.2)
      else none
    if metadata.any (fun kv => strStartsWith "GainMap" kv.1) then metadata else []

/-- The result record of `extract_ultrahdr_data` (pixel decoding is external,
so the two image slots keep the extracted sub-streams). -/
structure UltraHdrResult where
  primary_image : List ℕ
  gain_map : List ℕ
  gain_map_metadata : List (String × MetaValue)

/-- Metadata pass over one decodable sub-stream: scan its APP1 payloads, skip
to the byte after the null terminator of the namespace identifier, and let the
last non-empty parse win. -/
def streamMetadata (xmlParse : List ℕ → XmlParseOutcome)
    (gm : List (String × MetaValue)) (s : List ℕ) : List (String × MetaValue) :=
  (extract_app_segments [255, 225] s).foldl
    (fun gm seg =>
      match findFrom [0] seg 0 with
      | some p =>
          let parsed := parse_gain_map_metadata (xmlParse (seg.drop (p + 1)))
          if parsed.isEmpty then gm else parsed
      | none => gm) gm

/-- `extract_ultrahdr_data`: split the buffer into sub-streams, keep the
decodable ones (`PIL.Image.open` is the external `decodable` oracle), recover
gain-map metadata, and accept when at least two images decoded and metadata
was found; otherwise report failure by returning the empty result (`none`),
never raising. -/
def extract_ultrahdr_data (data : List ℕ) (decodable : List ℕ → Bool)
    (xmlParse : List ℕ → XmlParseOutcome) : Option UltraHdrResult :=
  let extracted := (splitStreams data).filter decodable
  let gm := extracted.foldl (streamMetadata xmlParse) []
  if 2 ≤ extracted.length ∧ gm.isEmpty = false then
    some ⟨extracted.getD 0 [], extracted.getD 1 [], gm⟩
  else none

/-! ## Numeric helper lemmas -/

theorem two_rpow_128_255_pow : ((2 : ℝ) ^ ((128 : ℝ) / 255)) ^ (255 : ℕ) = 2 ^ (128 : ℕ) := by
  rw [← Real.rpow_natCast ((2 : ℝ) ^ ((128 : ℝ) / 255)) 255,
    ← Real.rpow_mul (by norm_num : (0 : ℝ) ≤ 2),
    show ((128 : ℝ) / 255 * ((255 : ℕ) : ℝ)) = ((128 : ℕ) : ℝ) by push_cast; norm_num,
    Real.rpow_natCast]

theorem two_rpow_128_255_le : (2 : ℝ) ^ ((128 : ℝ) / 255) ≤ 1417 / 1000 := by
  refine le_of_pow_le_pow_left₀ (n := 255) (by norm_num) (by norm_num) ?_
  rw [two_rpow_128_255_pow, div_pow, le_div_iff₀ (by positivity)]
  exact_mod_cast (by norm_num : (2 : ℕ) ^ 128 * 1000 ^ 255 ≤ 1417 ^ 255)

theorem le_two_rpow_128_255 : (1416 : ℝ) / 1000 ≤ (2 : ℝ) ^ ((128 : ℝ) / 255) := by
  refine le_of_pow_le_pow_left₀ (n := 255) (by norm_num)
    (Real.rpow_nonneg (by norm_num) _) ?_
  rw [two_rpow_128_255_pow, div_pow, div_le_iff₀ (by positivity)]
  exact_mod_cast (by norm_num : (1416 : ℕ) ^ 255 ≤ 2 ^ 128 * 1000 ^ 255)

/-! ## Claim theorems -/

/-- C9: for every pair of Apple maker-note values, `compute_headroom` returns
a value at least `1`, because the stop count is floored at `0` before being
used as the exponent of `2`. -/
theorem compute_headroom_ge_one (maker33 maker48 : ℝ) :
    1 ≤ compute_headroom maker33 maker48 :=
  Real.one_le_rpow one_le_two (le_max_right _ _)

/-- C1: the gain-map decode computes, per channel,
`2 ^ (clip(gain,0,1)^gamma * (max - min) + min) * (baseline + baseline_offset)
- alternate_offset`; and in the scenario `min = 0`, `max = 1`, `gamma = 1`,
offsets zero, baseline `128/255`, gain `128/255`, the reconstructed HDR
channel is approximately `0.712` (within `1/500`). -/
theorem to_alternate_decode_formula :
    (∀ (md : GainmapChannelMeta) (b g : ℝ), 0 ≤ b → b ≤ 1 →
      to_alternate_channel md b g =
        (2 : ℝ) ^ ((clip g 0 1) ^ md.gainmap_gamma * (md.gainmap_max - md.gainmap_min)
          + md.gainmap_min) * (b + md.baseline_offset) - md.alternate_offset) ∧
    |to_alternate_channel ⟨0, 1, 1, 0, 0⟩ (128 / 255) (128 / 255) - 0.712| < 1 / 500 := by
  constructor
  · intro md b g _ _
    rfl
  · have hval : to_alternate_channel ⟨0, 1, 1, 0, 0⟩ (128 / 255) (128 / 255) =
        (2 : ℝ) ^ ((128 : ℝ) / 255) * (128 / 255) := by
      show (2 : ℝ) ^ ((clip ((128 : ℝ) / 255) 0 1) ^ (1 : ℝ) * (1 - 0) + 0) *
          ((128 : ℝ) / 255 + 0) - 0 = (2 : ℝ) ^ ((128 : ℝ) / 255) * (128 / 255)
      rw [clip_eq_self (by norm_num) (by norm_num), Real.rpow_one]
      norm_num
    rw [hval]
    have h1 := two_rpow_128_255_le
    have h2 := le_two_rpow_128_255
    rw [abs_lt]
    constructor <;> nlinarith

/-- C10: a tone-curve record with an unrecognised type, or a parametric
record with fewer parameters than its function type requires, makes both
`apply_trc` and `inverse_trc` return the input clipped to `[0,1]`. -/
theorem trc_unknown_acts_as_identity :
    (∀ (s : String) (v : ℝ),
      apply_trc (some (.Unknown s)) v = clip v 0 1 ∧
      inverse_trc (some (.Unknown s)) v = clip v 0 1) ∧
    (∀ (ft : ℕ) (ps : List ℝ) (v : ℝ), ft ≠ 0 → ft ≠ 1 → ft ≠ 3 →
      apply_trc (some (.Parametric ft ps)) v = clip v 0 1 ∧
      inverse_trc (some (.Parametric ft ps)) v = clip v 0 1) ∧
    (∀ (ps : List ℝ) (v : ℝ), ps.length < 1 →
      apply_trc (some (.Parametric 0 ps)) v = clip v 0 1 ∧
      inverse_trc (some (.Parametric 0 ps)) v = clip v 0 1) ∧
    (∀ (ps : List ℝ) (v : ℝ), ps.length < 3 →
      apply_trc (some (.Parametric 1 ps)) v = clip v 0 1 ∧
      inverse_trc (some (.Parametric 1 ps)) v = clip v 0 1) ∧
    (∀ (ps : List ℝ) (v : ℝ), ps.length < 5 →
      apply_trc (some (.Parametric 3 ps)) v = clip v 0 1 ∧
      inverse_trc (some (.Parametric 3 ps)) v = clip v 0 1) := by
  refine ⟨fun s v => ⟨rfl, rfl⟩, ?_, ?_, ?_, ?_⟩
  · intro ft ps v h0 h1 h3
    match ft, h0, h1, h3 with
    | 2, _, _, _ => exact ⟨rfl, rfl⟩
    | (n + 4), _, _, _ => exact ⟨rfl, rfl⟩
  · intro ps v hlen
    match ps, hlen with
    | [], _ => exact ⟨rfl, rfl⟩
  · intro ps v hlen
    match ps, hlen with
    | [], _ => exact ⟨rfl, rfl⟩
    | [a], _ => exact ⟨rfl, rfl⟩
    | [a, b], _ => exact ⟨rfl, rfl⟩
  · intro ps v hlen
    match ps, hlen with
    | [], _ => exact ⟨rfl, rfl⟩
    | [a], _ => exact ⟨rfl, rfl⟩
    | [a, b], _ => exact ⟨rfl, rfl⟩
    | [a, b, c], _ => exact ⟨rfl, rfl⟩
    | [a, b, c, d], _ => exact ⟨rfl, rfl⟩

/-- Witness for C1. -/
theorem to_alternate_decode_formula_witness :
    to_alternate_channel ⟨0, 1, 1, 0, 0⟩ (1 / 2) 2 =
      (2 : ℝ) ^ ((clip (2 : ℝ) 0 1) ^ (1 : ℝ) * ((1 : ℝ) - 0) + 0) * ((1 / 2 : ℝ) + 0) - 0 :=
  to_alternate_decode_formula.1 ⟨0, 1, 1, 0, 0⟩ (1 / 2) 2 (by norm_num) (by norm_num)

/-- Witness for C10. -/
theorem trc_unknown_acts_as_identity_witness :
    apply_trc (some (.Parametric 4 [1])) 2 = clip 2 0 1 ∧
    inverse_trc (some (.Parametric 4 [1])) 2 = clip 2 0 1 :=
  trc_unknown_acts_as_identity.2.1 4 [1] 2 (by norm_num) (by norm_num) (by norm_num)

theorem rpow_rpow_inv {x g : ℝ} (hx : 0 ≤ x) (hg : 0 < g) : (x ^ g) ^ (1 / g) = x := by
  rw [← Real.rpow_mul hx, mul_one_div_cancel hg.ne', Real.rpow_one]

/-- C2 (amended): round-trip `invert(evaluate(v)) = v` holds on `[0,1]` for
the tone-curve variants whose inverse is implemented: `Linear`, `Gamma` with
positive exponent, and parametric types 0 and 3 with well-formed parameters.
Parametric type 1 is excluded: `inverse_trc` has no branch for it (see the
counterexample). -/
theorem trc_roundtrip_invertible_variants :
    (∀ v : ℝ, 0 ≤ v → v ≤ 1 →
      inverse_trc (some .Linear) (apply_trc (some .Linear) v) = v) ∧
    (∀ g v : ℝ, 0 < g → 0 ≤ v → v ≤ 1 →
      inverse_trc (some (.Gamma g)) (apply_trc (some (.Gamma g)) v) = v) ∧
    (∀ (g : ℝ) (ps : List ℝ) (v : ℝ), 0 < g → 0 ≤ v → v ≤ 1 →
      inverse_trc (some (.Parametric 0 (g :: ps)))
        (apply_trc (some (.Parametric 0 (g :: ps))) v) = v) ∧
    (∀ (g a b c d : ℝ) (ps : List ℝ) (v : ℝ),
      0 < g → 0 < a → 0 < c → 0 ≤ d → d ≤ 1 → 0 ≤ a * d + b → a + b ≤ 1 →
      c * d ≤ (a * d + b) ^ g → 0 ≤ v → v ≤ 1 →
      inverse_trc (some (.Parametric 3 (g :: a :: b :: c :: d :: ps)))
        (apply_trc (some (.Parametric 3 (g :: a :: b :: c :: d :: ps))) v) = v) := by
  refine ⟨?_, ?_, ?_, ?_⟩
  · intro v h0 h1
    have ha : apply_trc (some .Linear) v = v := clip_eq_self h0 h1
    rw [ha]
    exact clip_eq_self h0 h1
  · intro g v hg h0 h1
    have ha : apply_trc (some (.Gamma g)) v = v ^ g := by
      show clip v 0 1 ^ g = v ^ g
      rw [clip_eq_self h0 h1]
    rw [ha]
    show (if 0 < g then clip (v ^ g) 0 1 ^ (1 / g) else clip (v ^ g) 0 1) = v
    rw [if_pos hg,
      clip_eq_self (Real.rpow_nonneg h0 g) (Real.rpow_le_one h0 h1 hg.le),
      rpow_rpow_inv h0 hg]
  · intro g ps v hg h0 h1
    have ha : apply_trc (some (.Parametric 0 (g :: ps))) v = v ^ g := by
      show clip v 0 1 ^ g = v ^ g
      rw [clip_eq_self h0 h1]
    rw [ha]
    show (if 0 < g then clip (v ^ g) 0 1 ^ (1 / g) else clip (v ^ g) 0 1) = v
    rw [if_pos hg,
      clip_eq_self (Real.rpow_nonneg h0 g) (Real.rpow_le_one h0 h1 hg.le),
      rpow_rpow_inv h0 hg]
  · intro g a b c d ps v hg ha0 hc0 hd0 hd1 hadb hab hcd h0 h1
    have hfwd : apply_trc (some (.Parametric 3 (g :: a :: b :: c :: d :: ps))) v =
        if d ≤ v then (a * v + b) ^ g else c * v := by
      show (if d ≤ clip v 0 1 then (a * clip v 0 1 + b) ^ g else c * clip v 0 1) = _
      rw [clip_eq_self h0 h1]
    have hadb1 : a * d + b ≤ 1 := by nlinarith
    have hT1 : (a * d + b) ^ g ≤ 1 := Real.rpow_le_one hadb hadb1 hg.le
    by_cases hdv : d ≤ v
    · have havb : a * d + b ≤ a * v + b := by nlinarith
      have havb0 : 0 ≤ a * v + b := le_trans hadb havb
      have havb1 : a * v + b ≤ 1 := by nlinarith
      have hf0 : 0 ≤ (a * v + b) ^ g := Real.rpow_nonneg havb0 g
      have hf1 : (a * v + b) ^ g ≤ 1 := Real.rpow_le_one havb0 havb1 hg.le
      have hTf : (a * d + b) ^ g ≤ (a * v + b) ^ g := Real.rpow_le_rpow hadb havb hg.le
      rw [hfwd, if_pos hdv]
      have hinv : inverse_trc (some (.Parametric 3 (g :: a :: b :: c :: d :: ps)))
          ((a * v + b) ^ g) =
          (if (if 0 < g then (a * d + b) ^ g else 0) ≤ clip ((a * v + b) ^ g) 0 1 then
            (if a ≠ 0 ∧ 0 < g then
              ((clip ((a * v + b) ^ g) 0 1 ^ (1 / g)) - b) / a
            else clip ((a * v + b) ^ g) 0 1)
          else (if c ≠ 0 then clip ((a * v + b) ^ g) 0 1 / c
            else clip ((a * v + b) ^ g) 0 1)) := rfl
      rw [hinv, clip_eq_self hf0 hf1, if_pos hg, if_pos hTf,
        if_pos ⟨ha0.ne', hg⟩, rpow_rpow_inv havb0 hg,
        show a * v + b - b = a * v by ring, mul_div_cancel_left₀ v ha0.ne']
    · have hvd : v < d := lt_of_not_le hdv
      have hf0 : 0 ≤ c * v := mul_nonneg hc0.le h0
      have hcvd : c * v < c * d := by nlinarith
      have hf1 : c * v ≤ 1 := le_trans hcvd.le (le_trans hcd hT1)
      have hfT : c * v < (a * d + b) ^ g := lt_of_lt_of_le hcvd hcd
      rw [hfwd, if_neg hdv]
      have hinv : inverse_trc (some (.Parametric 3 (g :: a :: b :: c :: d :: ps)))
          (c * v) =
          (if (if 0 < g then (a * d + b) ^ g else 0) ≤ clip (c * v) 0 1 then
            (if a ≠ 0 ∧ 0 < g then ((clip (c * v) 0 1 ^ (1 / g)) - b) / a
            else clip (c * v) 0 1)
          else (if c ≠ 0 then clip (c * v) 0 1 / c else clip (c * v) 0 1)) := rfl
      rw [hinv, clip_eq_self hf0 hf1, if_pos hg, if_neg (not_le.mpr hfT),
        if_pos hc0.ne', mul_div_cancel_left₀ v hc0.ne']

/-- Witness for C2 (amended). -/
theorem trc_roundtrip_invertible_variants_witness :
    inverse_trc (some (.Parametric 3 [1, 1 / 2, 0, 1 / 2, 1 / 2]))
      (apply_trc (some (.Parametric 3 [1, 1 / 2, 0, 1 / 2, 1 / 2])) (3 / 4)) = 3 / 4 :=
  trc_roundtrip_invertible_variants.2.2.2 1 (1 / 2) 0 (1 / 2) (1 / 2) [] (3 / 4)
    (by norm_num) (by norm_num) (by norm_num) (by norm_num) (by norm_num)
    (by norm_num) (by norm_num) (by rw [Real.rpow_one]; norm_num)
    (by norm_num) (by norm_num)

/-- C2 counterexample: parametric type 1 (CIE 122-1966) with well-formed
parameters `gamma = 2`, `a = 1`, `b = 0` does not round-trip at `v = 1/2`:
the forward curve gives `1/4` and `inverse_trc`, having no branch for type 1,
returns `1/4` unchanged — an error of `1/4`, far beyond `1e-4`. -/
theorem trc_parametric1_roundtrip_fails :
    ¬ (|inverse_trc (some (.Parametric 1 [2, 1, 0]))
          (apply_trc (some (.Parametric 1 [2, 1, 0])) (1 / 2)) - 1 / 2| ≤ 1 / 10000) := by
  have hfwd : apply_trc (some (.Parametric 1 [2, 1, 0])) (1 / 2) = 1 / 4 := by
    have h : apply_trc (some (.Parametric 1 [2, 1, 0])) (1 / 2) =
        if -(0 : ℝ) / 1 ≤ clip (1 / 2) 0 1 then
          ((1 : ℝ) * clip (1 / 2) 0 1 + 0) ^ (2 : ℝ) else 0 := rfl
    rw [h, clip_eq_self (by norm_num) (by norm_num), if_pos (by norm_num),
      show ((1 : ℝ) * (1 / 2) + 0) = (1 / 2 : ℝ) by norm_num,
      show ((2 : ℝ)) = ((2 : ℕ) : ℝ) by norm_num, Real.rpow_natCast]
    norm_num
  rw [hfwd]
  have hinv : inverse_trc (some (.Parametric 1 [2, 1, 0])) (1 / 4) =
      clip (1 / 4) 0 1 := rfl
  rw [hinv, clip_eq_self (by norm_num) (by norm_num)]
  rw [abs_of_nonpos (by norm_num)]
  norm_num

theorem apply_trc_p1_half :
    apply_trc (some (.Parametric 1 [2, 1, 0])) (1 / 2) = 1 / 4 := by
  have h : apply_trc (some (.Parametric 1 [2, 1, 0])) (1 / 2) =
      if -(0 : ℝ) / 1 ≤ clip (1 / 2) 0 1 then
        ((1 : ℝ) * clip (1 / 2) 0 1 + 0) ^ (2 : ℝ) else 0 := rfl
  rw [h, clip_eq_self (by norm_num) (by norm_num), if_pos (by norm_num),
    show ((1 : ℝ) * (1 / 2) + 0) = (1 / 2 : ℝ) by norm_num,
    show ((2 : ℝ)) = ((2 : ℕ) : ℝ) by norm_num, Real.rpow_natCast]
  norm_num

theorem inverse_trc_p1_quarter :
    inverse_trc (some (.Parametric 1 [2, 1, 0])) (1 / 4) = 1 / 4 := by
  have h : inverse_trc (some (.Parametric 1 [2, 1, 0])) (1 / 4) =
      clip (1 / 4) 0 1 := rfl
  rw [h, clip_eq_self (by norm_num) (by norm_num)]

/-- C3 (amended): for any engine whose colorant and chromatic-adaptation
matrices are present and invertible, and whose tone curve stays inside
`[0,1]` and round-trips on `[0,1]` (true of `Linear`, positive `Gamma`, and
well-formed parametric types 0 and 3, and of the absent curve — but not of
`Curve` or parametric type 1, see the counterexample), the RGB → XYZ → RGB
chain with linearisation reproduces the input within `1e-3` per channel. -/
theorem rgb_xyz_roundtrip (e : ColorEngine) (M C : Mat3) (rgb : Vec3)
    (hM : e.rgb_matrix = some M) (hC : e.chad = some C)
    (hMd : IsUnit M.det) (hCd : IsUnit C.det)
    (htrc_bounds : ∀ v : ℝ, 0 ≤ v → v ≤ 1 →
      0 ≤ apply_trc e.trc v ∧ apply_trc e.trc v ≤ 1)
    (htrc_inv : ∀ v : ℝ, 0 ≤ v → v ≤ 1 →
      inverse_trc e.trc (apply_trc e.trc v) = v)
    (hrgb : ∀ i, 0 ≤ rgb i ∧ rgb i ≤ 1) :
    ∃ out : Vec3,
      (rgb_to_xyz_matrix e rgb true).bind
        (fun xyz => xyz_to_rgb_matrix e xyz true) = .ok out ∧
      ∀ i, |out i - rgb i| ≤ 1 / 1000 := by
  obtain ⟨co, ro, tr⟩ := e
  replace hM : ro = some M := hM
  replace hC : co = some C := hC
  subst hM; subst hC
  have hCC : ∀ w : Vec3, C.mulVec (C⁻¹.mulVec w) = w := by
    intro w
    rw [Matrix.mulVec_mulVec, Matrix.mul_nonsing_inv C hCd, Matrix.one_mulVec]
  have hMM : ∀ w : Vec3, (M⁻¹).mulVec (M.mulVec w) = w := by
    intro w
    rw [Matrix.mulVec_mulVec, Matrix.nonsing_inv_mul M hMd, Matrix.one_mulVec]
  refine ⟨rgb, ?_, ?_⟩
  · cases tr with
    | none =>
        have hfwd : rgb_to_xyz_matrix ⟨some C, some M, none⟩ rgb true =
            .ok (C⁻¹.mulVec (M.mulVec rgb)) := rfl
        rw [hfwd]
        show xyz_to_rgb_matrix ⟨some C, some M, none⟩ (C⁻¹.mulVec (M.mulVec rgb)) true = .ok rgb
        have hback : xyz_to_rgb_matrix ⟨some C, some M, none⟩ (C⁻¹.mulVec (M.mulVec rgb)) true =
            .ok (fun i => clip (((M⁻¹).mulVec (C.mulVec (C⁻¹.mulVec (M.mulVec rgb)))) i) 0 1) := rfl
        rw [hback, hCC, hMM]
        exact congrArg Except.ok (funext fun i =>
          clip_eq_self (hrgb i).1 (hrgb i).2)
    | some t =>
        have hfwd : rgb_to_xyz_matrix ⟨some C, some M, some t⟩ rgb true =
            .ok (C⁻¹.mulVec (M.mulVec (fun i => apply_trc (some t) (rgb i)))) := rfl
        rw [hfwd]
        show xyz_to_rgb_matrix ⟨some C, some M, some t⟩
            (C⁻¹.mulVec (M.mulVec (fun i => apply_trc (some t) (rgb i)))) true = .ok rgb
        have hback : xyz_to_rgb_matrix ⟨some C, some M, some t⟩
            (C⁻¹.mulVec (M.mulVec (fun i => apply_trc (some t) (rgb i)))) true =
            .ok (fun i => clip (inverse_trc (some t)
              (clip (((M⁻¹).mulVec (C.mulVec (C⁻¹.mulVec (M.mulVec (fun i => apply_trc (some t) (rgb i)))))) i)
                0 1)) 0 1) := rfl
        rw [hback, hCC, hMM]
        refine congrArg Except.ok (funext fun i => ?_)
        have hb := htrc_bounds (rgb i) (hrgb i).1 (hrgb i).2
        rw [clip_eq_self hb.1 hb.2, htrc_inv (rgb i) (hrgb i).1 (hrgb i).2,
          clip_eq_self (hrgb i).1 (hrgb i).2]
  · intro i
    simp

/-- Witness for C3 (amended). -/
theorem rgb_xyz_roundtrip_witness :
    ∃ out : Vec3,
      (rgb_to_xyz_matrix ⟨some 1, some 1, none⟩ (fun _ => 1 / 2) true).bind
        (fun xyz => xyz_to_rgb_matrix ⟨some 1, some 1, none⟩ xyz true) = .ok out ∧
      ∀ i, |out i - (fun _ : Fin 3 => (1 / 2 : ℝ)) i| ≤ 1 / 1000 :=
  rgb_xyz_roundtrip ⟨some 1, some 1, none⟩ 1 1 (fun _ => 1 / 2) rfl rfl
    (by simp) (by simp)
    (fun v h0 h1 => ⟨le_clip (by norm_num), clip_le⟩)
    (fun v h0 h1 => by
      show clip (clip v 0 1) 0 1 = v
      rw [clip_eq_self h0 h1, clip_eq_self h0 h1])
    (fun i => ⟨by norm_num, by norm_num⟩)

/-- C3 counterexample: with identity matrices (present and invertible) and a
parametric type 1 tone curve with parameters `gamma = 2`, `a = 1`, `b = 0`,
the round trip at RGB `(1/2, 1/2, 1/2)` returns `(1/4, 1/4, 1/4)` — an error
of `1/4`, far beyond `1e-3`. -/
theorem rgb_xyz_roundtrip_fails_parametric1 :
    (rgb_to_xyz_matrix ⟨some 1, some 1, some (.Parametric 1 [2, 1, 0])⟩
        (fun _ => 1 / 2) true).bind
      (fun xyz => xyz_to_rgb_matrix ⟨some 1, some 1, some (.Parametric 1 [2, 1, 0])⟩
        xyz true) = .ok (fun _ => (1 / 4 : ℝ)) ∧
    ¬ (|(1 / 4 : ℝ) - 1 / 2| ≤ 1 / 1000) := by
  constructor
  · have hr1 : (fun i : Fin 3 =>
        apply_trc (some (.Parametric 1 [2, 1, 0])) ((fun _ : Fin 3 => (1 / 2 : ℝ)) i)) =
        (fun _ : Fin 3 => (1 / 4 : ℝ)) := funext fun i => apply_trc_p1_half
    have hfwd : rgb_to_xyz_matrix ⟨some 1, some 1, some (.Parametric 1 [2, 1, 0])⟩
        (fun _ => 1 / 2) true =
        .ok (((1 : Mat3)⁻¹).mulVec ((1 : Mat3).mulVec (fun i : Fin 3 =>
          apply_trc (some (.Parametric 1 [2, 1, 0])) ((fun _ : Fin 3 => (1 / 2 : ℝ)) i)))) := rfl
    rw [hfwd, hr1, inv_one, Matrix.one_mulVec, Matrix.one_mulVec]
    show xyz_to_rgb_matrix ⟨some 1, some 1, some (.Parametric 1 [2, 1, 0])⟩
        (fun _ => (1 / 4 : ℝ)) true = .ok (fun _ => (1 / 4 : ℝ))
    have hback : xyz_to_rgb_matrix ⟨some 1, some 1, some (.Parametric 1 [2, 1, 0])⟩
        (fun _ => (1 / 4 : ℝ)) true =
        .ok (fun i => clip (inverse_trc (some (.Parametric 1 [2, 1, 0]))
          (clip ((((1 : Mat3)⁻¹).mulVec ((1 : Mat3).mulVec (fun _ : Fin 3 => (1 / 4 : ℝ)))) i) 0 1))
          0 1) := rfl
    rw [hback, inv_one, Matrix.one_mulVec, Matrix.one_mulVec]
    refine congrArg Except.ok (funext fun i => ?_)
    rw [show clip ((1 : ℝ) / 4) 0 1 = 1 / 4 from clip_eq_self (by norm_num) (by norm_num),
      inverse_trc_p1_quarter,
      show clip ((1 : ℝ) / 4) 0 1 = 1 / 4 from clip_eq_self (by norm_num) (by norm_num)]
  · rw [abs_of_nonpos (by norm_num)]
    norm_num

/-- C4 (amended): only the colorant matrix is mandatory — when it is absent
both conversion directions fail with the error naming the RGB matrix; when
only the chromatic-adaptation matrix is absent the conversion proceeds,
silently skipping the adaptation step (see the counterexample for the
original claim). -/
theorem missing_colorant_matrix_errors :
    (∀ (e : ColorEngine) (v : Vec3) (f : Bool), e.rgb_matrix = none →
      rgb_to_xyz_matrix e v f = .error "RGB matrix not available" ∧
      xyz_to_rgb_matrix e v f = .error "RGB matrix not available") ∧
    (∀ (e : ColorEngine) (M : Mat3) (v : Vec3), e.rgb_matrix = some M → e.chad = none →
      rgb_to_xyz_matrix e v false = .ok (M.mulVec v)) := by
  constructor
  · intro e v f h
    obtain ⟨co, ro, tr⟩ := e
    replace h : ro = none := h
    subst h
    exact ⟨rfl, rfl⟩
  · intro e M v hM hc
    obtain ⟨co, ro, tr⟩ := e
    replace hM : ro = some M := hM
    replace hc : co = none := hc
    subst hM; subst hc
    rfl

/-- Witness for C4 (amended). -/
theorem missing_colorant_matrix_errors_witness :
    rgb_to_xyz_matrix ⟨none, none, none⟩ (fun _ => 0) true =
      .error "RGB matrix not available" ∧
    xyz_to_rgb_matrix ⟨none, none, none⟩ (fun _ => 0) true =
      .error "RGB matrix not available" :=
  missing_colorant_matrix_errors.1 ⟨none, none, none⟩ (fun _ => 0) true rfl

/-- C4 counterexample: an engine whose chromatic-adaptation matrix is absent
(but whose colorant matrix is present) does not fail — both directions return
a result, with the adaptation step skipped; the original claim said both
operations fail when either matrix is absent. -/
theorem chad_absent_does_not_error :
    rgb_to_xyz_matrix ⟨none, some 1, none⟩ (fun _ => (1 / 2 : ℝ)) true =
      .ok (fun _ => (1 / 2 : ℝ)) ∧
    xyz_to_rgb_matrix ⟨none, some 1, none⟩ (fun _ => (1 / 2 : ℝ)) true =
      .ok (fun _ => (1 / 2 : ℝ)) := by
  constructor
  · have h : rgb_to_xyz_matrix ⟨none, some 1, none⟩ (fun _ => (1 / 2 : ℝ)) true =
        .ok ((1 : Mat3).mulVec (fun _ => (1 / 2 : ℝ))) := rfl
    rw [h, Matrix.one_mulVec]
  · have h : xyz_to_rgb_matrix ⟨none, some 1, none⟩ (fun _ => (1 / 2 : ℝ)) true =
        .ok (fun i => clip ((((1 : Mat3)⁻¹).mulVec (fun _ => (1 / 2 : ℝ))) i) 0 1) := rfl
    rw [h, inv_one, Matrix.one_mulVec]
    exact congrArg Except.ok (funext fun i => clip_eq_self (by norm_num) (by norm_num))

theorem strStartsWith_append {p q s : String}
    (hp : strStartsWith p s = true) (hq : strStartsWith q (s.drop p.length) = true) :
    strStartsWith (p ++ q) s = true := by
  unfold strStartsWith at hp hq ⊢
  rw [List.isPrefixOf_iff_prefix] at hp hq ⊢
  rw [show (s.drop p.length).data = s.data.drop p.data.length from String.data_drop s p.length]
    at hq
  obtain ⟨t, ht⟩ := hp
  rw [← ht] at hq
  rw [String.data_append, ← ht]
  rw [List.drop_left] at hq
  obtain ⟨r, hr⟩ := hq
  exact ⟨r, by rw [List.append_assoc, hr]⟩

/-- C8: when no attribute of the first `rdf:Description` is an
`hdrgm`-namespaced attribute whose local name starts with `GainMap` — in
particular when the payload is not valid XML at all (`none`) or has no
`rdf:Description` (`some none`) — `parse_gain_map_metadata` returns the empty
record, and (being a total function ending in the catch-all `return {}`)
never raises. -/
theorem parse_gain_map_metadata_empty (x : XmlParseOutcome)
    (h : ∀ attrs, x = some (some attrs) →
      ∀ kv ∈ attrs, strStartsWith (hdrgmPrefix ++ "GainMap") kv.1 = false) :
    parse_gain_map_metadata x = [] := by
  match x with
  | none => rfl
  | some none => rfl
  | some (some attrs) =>
    simp only [parse_gain_map_metadata]
    rw [if_neg]
    intro hany
    rw [List.any_eq_true] at hany
    obtain ⟨kv, hkv, hpre⟩ := hany
    rw [List.mem_filterMap] at hkv
    obtain ⟨kv0, hkv0, heq⟩ := hkv
    cases hsw : strStartsWith hdrgmPrefix kv0.1 with
    | false => rw [hsw] at heq; simp at heq
    | true =>
        rw [hsw] at heq
        simp only [if_true] at heq
        obtain rfl : kv = (kv0.1.drop hdrgmPrefix.length, coerceValue kv0.2) := by
          cases heq; rfl
        have hfull : strStartsWith (hdrgmPrefix ++ "GainMap") kv0.1 = true :=
          strStartsWith_append hsw hpre
        rw [h attrs rfl kv0 hkv0] at hfull
        exact Bool.false_ne_true hfull

/-- Witness for C8. -/
theorem parse_gain_map_metadata_empty_witness :
    parse_gain_map_metadata (some (some [("a", "b")])) = [] :=
  parse_gain_map_metadata_empty (some (some [("a", "b")])) (by
    intro attrs h kv hm
    obtain rfl : attrs = [("a", "b")] := by
      injection h with h1
      injection h1 with h2
      exact h2.symm
    revert hm
    revert kv
    decide)

/-! ## Characterisation of the marker scan -/

theorem isMatch_bounds {data : List ℕ} {i : ℕ} {pat : List ℕ}
    (hp : pat ≠ []) (h : isMatch data i pat) : i + pat.length ≤ data.length := by
  unfold isMatch at h
  have hlen := congrArg List.length h
  rw [List.length_take, List.length_drop] at hlen
  have hp1 : 1 ≤ pat.length := List.length_pos.mpr hp
  omega

theorem find?_range'_eq_some {p : ℕ → Bool} {s n t : ℕ}
    (hst : s ≤ t) (htn : t < s + n) (hpt : p t = true)
    (hmin : ∀ j, s ≤ j → j < t → p j = false) :
    (List.range' s n).find? p = some t := by
  induction n generalizing s with
  | zero => omega
  | succ n ih =>
    rw [List.range'_succ]
    rcases eq_or_lt_of_le hst with rfl | hlt
    · rw [List.find?_cons_of_pos _ hpt]
    · rw [List.find?_cons_of_neg _ (by simp [hmin s le_rfl hlt])]
      exact ih hlt (by omega) (fun j h1 h2 => hmin j (by omega) h2)

theorem findFrom_eq_some {pat data : List ℕ} {start t : ℕ}
    (hp : pat ≠ []) (hst : start ≤ t) (ht : isMatch data t pat)
    (hmin : ∀ j, start ≤ j → j < t → ¬ isMatch data j pat) :
    findFrom pat data start = some t := by
  have hb := isMatch_bounds hp ht
  have hp1 : 1 ≤ pat.length := List.length_pos.mpr hp
  apply find?_range'_eq_some hst (by omega) (by simp [ht])
  intro j h1 h2
  simp [hmin j h1 h2]

theorem findFrom_length_eq_none {pat data : List ℕ} :
    findFrom pat data data.length = none := by
  unfold findFrom
  simp

theorem isMatch_append_left {s1 s2 : List ℕ} {j : ℕ} {pat : List ℕ}
    (h : j + pat.length ≤ s1.length) :
    isMatch (s1 ++ s2) j pat ↔ isMatch s1 j pat := by
  unfold isMatch
  rw [List.drop_append_of_le_length (by omega),
    List.take_append_of_le_length (by rw [List.length_drop]; omega)]

theorem isMatch_append_right {s1 s2 : List ℕ} {j : ℕ} {pat : List ℕ}
    (h : s1.length ≤ j) :
    isMatch (s1 ++ s2) j pat ↔ isMatch s2 (j - s1.length) pat := by
  unfold isMatch
  have hd : (s1 ++ s2).drop j = s2.drop (j - s1.length) := by
    conv_lhs => rw [show j = s1.length + (j - s1.length) by omega]
    exact List.drop_append _
  rw [hd]

theorem scanStreams_cons {data : List ℕ} {fuel off soi eoi : ℕ}
    (hs : findFrom [255, 216] data off = some soi)
    (he : findFrom [255, 217] data (soi + 2) = some eoi) :
    scanStreams data (fuel + 1) off =
      (data.drop soi).take (eoi + 2 - soi) :: scanStreams data fuel (eoi + 2) := by
  simp [scanStreams, hs, he]

theorem scanStreams_nil {data : List ℕ} {fuel off : ℕ}
    (hs : findFrom [255, 216] data off = none) :
    scanStreams data (fuel + 1) off = [] := by
  simp [scanStreams, hs]

/-- A well-formed JPEG stream for the purposes of the container scan: at
least four bytes, starting with the start-of-image marker `FFD8`, ending with
the end-of-image marker `FFD9`, and containing no other occurrence of the
end-of-image marker. -/
def wellFormedJpeg (s : List ℕ) : Prop :=
  4 ≤ s.length ∧ s.take 2 = [255, 216] ∧ s.drop (s.length - 2) = [255, 217] ∧
  ∀ i < s.length, isMatch s i [255, 217] → i = s.length - 2

instance (s : List ℕ) : Decidable (wellFormedJpeg s) := by
  unfold wellFormedJpeg
  infer_instance

theorem wellFormedJpeg.isMatch_soi {s : List ℕ} (h : wellFormedJpeg s) :
    isMatch s 0 [255, 216] := by
  unfold isMatch
  rw [List.drop_zero]
  exact h.2.1

theorem wellFormedJpeg.isMatch_eoi {s : List ℕ} (h : wellFormedJpeg s) :
    isMatch s (s.length - 2) [255, 217] := by
  unfold isMatch
  rw [h.2.2.1]
  rfl

theorem wellFormedJpeg.no_early_eoi {s : List ℕ} (h : wellFormedJpeg s)
    {j : ℕ} (hj : j < s.length - 2) : ¬ isMatch s j [255, 217] := by
  intro hm
  exact absurd (h.2.2.2 j (by omega) hm) (by omega)

/-- C6: on a buffer that is the concatenation of exactly two well-formed JPEG
streams, the scan of `extract_ultrahdr_data` produces exactly the two
sub-streams, in buffer order (each start-of-image marker paired with the
first end-of-image marker after it). -/
theorem splitStreams_two_streams (s1 s2 : List ℕ)
    (h1 : wellFormedJpeg s1) (h2 : wellFormedJpeg s2) :
    splitStreams (s1 ++ s2) = [s1, s2] := by
  have hl1 : 4 ≤ s1.length := h1.1
  have hl2 : 4 ≤ s2.length := h2.1
  have hlen : (s1 ++ s2).length = s1.length + s2.length := List.length_append s1 s2
  -- first start-of-image marker: position 0
  have e1 : findFrom [255, 216] (s1 ++ s2) 0 = some 0 := by
    refine findFrom_eq_some (by simp) (Nat.zero_le 0) ?_ (by omega)
    exact (isMatch_append_left (by simp; omega)).mpr h1.isMatch_soi
  -- first end-of-image marker after it: end of `s1`
  have e2 : findFrom [255, 217] (s1 ++ s2) (0 + 2) = some (s1.length - 2) := by
    refine findFrom_eq_some (by simp) (by omega) ?_ ?_
    · exact (isMatch_append_left (by simp; omega)).mpr h1.isMatch_eoi
    · intro j hj1 hj2 hm
      rw [isMatch_append_left (by simp; omega)] at hm
      exact h1.no_early_eoi hj2 hm
  -- second start-of-image marker: start of `s2`
  have e3 : findFrom [255, 216] (s1 ++ s2) (s1.length - 2 + 2) = some s1.length := by
    refine findFrom_eq_some (by simp) (by omega) ?_ (by omega)
    rw [isMatch_append_right le_rfl]
    simpa using h2.isMatch_soi
  -- second end-of-image marker: end of `s2`
  have e4 : findFrom [255, 217] (s1 ++ s2) (s1.length + 2) =
      some (s1.length + s2.length - 2) := by
    refine findFrom_eq_some (by simp) (by omega) ?_ ?_
    · rw [isMatch_append_right (by omega),
        show s1.length + s2.length - 2 - s1.length = s2.length - 2 by omega]
      exact h2.isMatch_eoi
    · intro j hj1 hj2 hm
      rw [isMatch_append_right (by omega)] at hm
      have hb := isMatch_bounds (by simp) hm
      exact h2.no_early_eoi (by omega) hm
  -- no third start-of-image marker
  have e5 : findFrom [255, 216] (s1 ++ s2) (s1.length + s2.length - 2 + 2) = none := by
    rw [show s1.length + s2.length - 2 + 2 = (s1 ++ s2).length by omega]
    exact findFrom_length_eq_none
  obtain ⟨f, hf⟩ : ∃ f, (s1 ++ s2).length + 1 = f + 3 := ⟨(s1 ++ s2).length - 2, by omega⟩
  rw [splitStreams, hf,
    show f + 3 = (f + 2) + 1 by omega, scanStreams_cons e1 e2,
    show f + 2 = (f + 1) + 1 by omega, scanStreams_cons e3 (by rw [e4]),
    scanStreams_nil e5]
  rw [List.drop_zero,
    show s1.length - 2 + 2 - 0 = s1.length by omega, List.take_left,
    List.drop_left,
    show s1.length + s2.length - 2 + 2 - s1.length = s2.length by omega,
    List.take_length]

/-- Witness for C6. -/
theorem splitStreams_two_streams_witness :
    wellFormedJpeg [255, 216, 255, 217] ∧
    splitStreams ([255, 216, 255, 217] ++ [255, 216, 255, 217]) =
      [[255, 216, 255, 217], [255, 216, 255, 217]] :=
  ⟨by decide, splitStreams_two_streams _ _ (by decide) (by decide)⟩

theorem splitStreams_single (s : List ℕ) (h : wellFormedJpeg s) :
    splitStreams s = [s] := by
  have hl : 4 ≤ s.length := h.1
  have e1 : findFrom [255, 216] s 0 = some 0 :=
    findFrom_eq_some (by simp) le_rfl h.isMatch_soi (by omega)
  have e2 : findFrom [255, 217] s (0 + 2) = some (s.length - 2) := by
    refine findFrom_eq_some (by simp) (by omega) h.isMatch_eoi ?_
    intro j hj1 hj2 hm
    exact h.no_early_eoi hj2 hm
  have e3 : findFrom [255, 216] s (s.length - 2 + 2) = none := by
    rw [show s.length - 2 + 2 = s.length by omega]
    exact findFrom_length_eq_none
  obtain ⟨f, hf⟩ : ∃ f, s.length + 1 = f + 2 := ⟨s.length - 1, by omega⟩
  rw [splitStreams, hf, show f + 2 = (f + 1) + 1 by omega, scanStreams_cons e1 e2,
    scanStreams_nil e3]
  rw [List.drop_zero, show s.length - 2 + 2 - 0 = s.length by omega, List.take_length]

/-- C5 (amended): `extract_ultrahdr_data` accepts a buffer exactly when it
yields **at least** two decodable sub-images (not exactly two — see the
counterexample) and gain-map metadata is recovered; the first two decoded
sub-images become the primary image and the gain map.  Any other buffer — in
particular one holding a single well-formed JPEG stream — produces the
not-recognised report (`none`, the empty result), returned normally rather
than raised. -/
theorem extract_ultrahdr_two_layer :
    (∀ (data : List ℕ) (decodable : List ℕ → Bool)
        (xmlParse : List ℕ → XmlParseOutcome),
      (2 ≤ ((splitStreams data).filter decodable).length ∧
          (((splitStreams data).filter decodable).foldl
            (streamMetadata xmlParse) []).isEmpty = false →
        extract_ultrahdr_data data decodable xmlParse =
          some ⟨((splitStreams data).filter decodable).getD 0 [],
                ((splitStreams data).filter decodable).getD 1 [],
                ((splitStreams data).filter decodable).foldl
                  (streamMetadata xmlParse) []⟩) ∧
      (¬ (2 ≤ ((splitStreams data).filter decodable).length ∧
          (((splitStreams data).filter decodable).foldl
            (streamMetadata xmlParse) []).isEmpty = false) →
        extract_ultrahdr_data data decodable xmlParse = none)) ∧
    (∀ (s : List ℕ) (decodable : List ℕ → Bool)
        (xmlParse : List ℕ → XmlParseOutcome),
      wellFormedJpeg s → extract_ultrahdr_data s decodable xmlParse = none) := by
  constructor
  · intro data dec xml
    constructor
    · intro hc
      simp only [extract_ultrahdr_data]
      rw [if_pos hc]
    · intro hc
      simp only [extract_ultrahdr_data]
      rw [if_neg hc]
  · intro s dec xml hwf
    have hsplit := splitStreams_single s hwf
    simp only [extract_ultrahdr_data, hsplit]
    rw [if_neg]
    intro hcon
    have hlen : (List.filter dec [s]).length ≤ 1 := by
      cases hd : dec s <;> simp [List.filter, hd]
    omega

/-- Witness for C5 (amended). -/
theorem extract_ultrahdr_two_layer_witness :
    extract_ultrahdr_data [255, 216, 255, 217] (fun _ => true) (fun _ => none) = none :=
  extract_ultrahdr_two_layer.2 [255, 216, 255, 217] (fun _ => true) (fun _ => none)
    (by decide)

set_option maxRecDepth 100000 in
/-- C5 counterexample: a buffer holding **three** decodable JPEG sub-streams
(the middle one carrying gain-map metadata in an APP1 segment) is still
accepted as a two-layer container — the code tests `len(extracted_images) >= 2`,
not "exactly two". -/
theorem extract_ultrahdr_accepts_three_streams :
    ((splitStreams ([255, 216, 255, 217] ++
        ([255, 216, 255, 225, 0, 5, 0, 97, 98, 255, 217] ++
          [255, 216, 255, 217]))).filter (fun _ => true)).length = 3 ∧
    (extract_ultrahdr_data
        ([255, 216, 255, 217] ++
          ([255, 216, 255, 225, 0, 5, 0, 97, 98, 255, 217] ++
            [255, 216, 255, 217]))
        (fun _ => true)
        (fun p => if p = [97, 98] then
          some (some [(hdrgmPrefix ++ "GainMapMax", "2")]) else none)).isSome = true := by
  constructor
  · decide
  · decide

/-! ## Percentile coverage -/

theorem countP_ge_slice {s : List ℝ} {P : ℝ → Bool} {a b : ℕ}
    (hb : b < s.length) (hab : a ≤ b)
    (h : ∀ k, a ≤ k → k ≤ b → ∀ hk : k < s.length, P s[k] = true) :
    b + 1 - a ≤ s.countP P := by
  have hmidlen : ((s.drop a).take (b + 1 - a)).length = b + 1 - a := by
    rw [List.length_take, List.length_drop]
    omega
  have hmid : ((s.drop a).take (b + 1 - a)).countP P = b + 1 - a := by
    rw [List.countP_eq_length.mpr, hmidlen]
    intro x hx
    rw [List.mem_iff_getElem] at hx
    obtain ⟨j, hj, rfl⟩ := hx
    rw [List.getElem_take, List.getElem_drop]
    have hjlen : j < b + 1 - a := by
      have := hj
      rw [hmidlen] at this
      exact this
    exact h (a + j) (by omega) (by omega) (by omega)
  have hsplit : s = s.take a ++ ((s.drop a).take (b + 1 - a) ++
      (s.drop a).drop (b + 1 - a)) := by
    rw [List.take_append_drop, List.take_append_drop]
  calc b + 1 - a = ((s.drop a).take (b + 1 - a)).countP P := hmid.symm
    _ ≤ s.countP P := by
        conv_rhs => rw [hsplit]
        rw [List.countP_append, List.countP_append]
        omega

theorem coverage_arith {n m cnt : ℕ} (hm : n = m + 1)
    (hcnt : 99 * m / 100 + 1 - (m + 99) / 100 ≤ cnt)
    (hab : (m + 99) / 100 ≤ 99 * m / 100) :
    n ≤ cnt + 2 * ((n + 98) / 100) := by omega

theorem coverage_arith_small {n m cnt : ℕ} (hm : n = m + 1)
    (hab : ¬ ((m + 99) / 100 ≤ 99 * m / 100)) :
    n ≤ cnt + 2 * ((n + 98) / 100) := by
  have hm1 : m = 1 := by omega
  omega

theorem percentile_coverage (L : List ℝ) (hn : 1 ≤ L.length) :
    L.length ≤ L.countP (fun x => decide (percentile L 1 ≤ x ∧ x ≤ percentile L 99)) +
      2 * ((L.length + 98) / 100) := by
  have hsort : List.Sorted (· ≤ ·) (List.insertionSort (· ≤ ·) L) :=
    List.sorted_insertionSort _ L
  have hperm : (List.insertionSort (· ≤ ·) L).Perm L := List.perm_insertionSort _ L
  set s := List.insertionSort (· ≤ ·) L with hs_def
  have hslen : s.length = L.length := hperm.length_eq
  obtain ⟨m, hm⟩ : ∃ m, L.length = m + 1 := ⟨L.length - 1, by omega⟩
  have hmono : ∀ i j : ℕ, i ≤ j → j < s.length → s.getD i 0 ≤ s.getD j 0 := by
    intro i j hij hj
    rw [List.getD_eq_getElem s 0 (lt_of_le_of_lt hij hj), List.getD_eq_getElem s 0 hj]
    have h := List.Sorted.rel_get_of_le hsort
      (a := ⟨i, lt_of_le_of_lt hij hj⟩) (b := ⟨j, hj⟩) hij
    simpa using h
  have hcast : ((L.length : ℝ) - 1) = (m : ℝ) := by rw [hm]; push_cast; ring
  have hq1 : ⌊(1 : ℝ) / 100 * ((L.length : ℝ) - 1)⌋₊ = m / 100 := by
    rw [hcast, show (1 : ℝ) / 100 * (m : ℝ) = (m : ℝ) / ((100 : ℕ) : ℝ) by
        push_cast; ring,
      Nat.floor_div_nat, Nat.floor_natCast]
  have hq99 : ⌊(99 : ℝ) / 100 * ((L.length : ℝ) - 1)⌋₊ = 99 * m / 100 := by
    rw [hcast, show (99 : ℝ) / 100 * (m : ℝ) = ((99 * m : ℕ) : ℝ) / ((100 : ℕ) : ℝ) by
        push_cast; ring,
      Nat.floor_div_nat, Nat.floor_natCast]
  have hp1 : percentile L 1 = s.getD (m / 100) 0 +
      ((1 : ℝ) / 100 * ((L.length : ℝ) - 1) - ((m / 100 : ℕ) : ℝ)) *
        (s.getD (min (m / 100 + 1) (L.length - 1)) 0 - s.getD (m / 100) 0) := by
    simp only [percentile, hq1, ← hs_def]
  have hp99 : percentile L 99 = s.getD (99 * m / 100) 0 +
      ((99 : ℝ) / 100 * ((L.length : ℝ) - 1) - ((99 * m / 100 : ℕ) : ℝ)) *
        (s.getD (min (99 * m / 100 + 1) (L.length - 1)) 0 - s.getD (99 * m / 100) 0) := by
    simp only [percentile, hq99, ← hs_def]
  -- fractional parts lie in [0, 1)
  have hfrac1_lo : (0 : ℝ) ≤ (1 : ℝ) / 100 * ((L.length : ℝ) - 1) - ((m / 100 : ℕ) : ℝ) := by
    rw [← hq1]
    have := Nat.floor_le (by rw [hcast]; positivity :
      (0 : ℝ) ≤ (1 : ℝ) / 100 * ((L.length : ℝ) - 1))
    linarith
  have hfrac1_hi : (1 : ℝ) / 100 * ((L.length : ℝ) - 1) - ((m / 100 : ℕ) : ℝ) ≤ 1 := by
    rw [← hq1]
    have := Nat.lt_floor_add_one ((1 : ℝ) / 100 * ((L.length : ℝ) - 1))
    linarith
  have hfrac99_lo : (0 : ℝ) ≤ (99 : ℝ) / 100 * ((L.length : ℝ) - 1) -
      ((99 * m / 100 : ℕ) : ℝ) := by
    rw [← hq99]
    have := Nat.floor_le (by rw [hcast]; positivity :
      (0 : ℝ) ≤ (99 : ℝ) / 100 * ((L.length : ℝ) - 1))
    linarith
  -- p1 is at most the order statistic at the ceiling index
  have key1 : percentile L 1 ≤ s.getD ((m + 99) / 100) 0 := by
    by_cases hdvd : m % 100 = 0
    · have hz : (1 : ℝ) / 100 * ((L.length : ℝ) - 1) - ((m / 100 : ℕ) : ℝ) = 0 := by
        obtain ⟨k, hk⟩ : ∃ k, m = 100 * k := ⟨m / 100, by omega⟩
        subst hk
        rw [hcast, show 100 * k / 100 = k by omega]
        push_cast
        ring
      rw [hp1, hz, show (m + 99) / 100 = m / 100 by omega]
      simp
    · have hceil : (m + 99) / 100 = m / 100 + 1 := by omega
      have hle : m / 100 + 1 ≤ m := by omega
      rw [hp1, hceil, show min (m / 100 + 1) (L.length - 1) = m / 100 + 1 by omega]
      have hxy : s.getD (m / 100) 0 ≤ s.getD (m / 100 + 1) 0 :=
        hmono _ _ (by omega) (by omega)
      nlinarith [hfrac1_hi, hfrac1_lo]
  -- p99 is at least the order statistic at the floor index
  have key99 : s.getD (99 * m / 100) 0 ≤ percentile L 99 := by
    rw [hp99]
    have hxy : s.getD (99 * m / 100) 0 ≤
        s.getD (min (99 * m / 100 + 1) (L.length - 1)) 0 := by
      refine hmono _ _ (by omega) (by omega)
    nlinarith [hfrac99_lo]
  -- count the order statistics between the two indices
  by_cases hab : (m + 99) / 100 ≤ 99 * m / 100
  · have hcount : 99 * m / 100 + 1 - (m + 99) / 100 ≤
        L.countP (fun x => decide (percentile L 1 ≤ x ∧ x ≤ percentile L 99)) := by
      rw [← hperm.countP_eq]
      refine countP_ge_slice (by omega) hab ?_
      intro k hk1 hk2 hk
      have hlo : percentile L 1 ≤ s.getD k 0 :=
        le_trans key1 (hmono _ _ hk1 hk)
      have hhi : s.getD k 0 ≤ percentile L 99 :=
        le_trans (hmono _ _ hk2 (by omega)) key99
      rw [List.getD_eq_getElem s 0 hk] at hlo hhi
      simp only [decide_eq_true_eq]
      exact ⟨hlo, hhi⟩
    exact coverage_arith hm hcount hab
  · exact coverage_arith_small hm hab

/-- C7 (amended): `hdr_to_gainmap` declares `gainmap_min`/`gainmap_max` as
the 1st/99th percentiles (numpy linear interpolation) of the log2 gain
samples, and derives the baseline by the Reinhard curve `x/(1+x)` scaled to
8 bits when none is supplied.  The percentile choice guarantees that at least
`n - 2⌈(n-1)/100⌉` of the `n` log2 gain samples lie within the declared
range — hence at least 98% whenever `n` is a positive multiple of 100.  The
plain "at least 98%" of the original claim is false for other `n` (see the
counterexample with two pixels, where no sample lies within the range). -/
theorem hdr_to_gainmap_range_coverage :
    (∀ (hdr_data : List ℝ) (baseline : Option (List ℕ)),
      hdr_to_gainmap_range hdr_data baseline =
        (percentile (hdr_to_gainmap_logs hdr_data baseline) 1,
          percentile (hdr_to_gainmap_logs hdr_data baseline) 99)) ∧
    (∀ (hdr_data : List ℝ) (baseline : Option (List ℕ)),
      1 ≤ (hdr_to_gainmap_logs hdr_data baseline).length →
      (hdr_to_gainmap_logs hdr_data baseline).length ≤
        (hdr_to_gainmap_logs hdr_data baseline).countP
          (fun x => decide ((hdr_to_gainmap_range hdr_data baseline).1 ≤ x ∧
            x ≤ (hdr_to_gainmap_range hdr_data baseline).2)) +
        2 * (((hdr_to_gainmap_logs hdr_data baseline).length + 98) / 100)) ∧
    (∀ (hdr_data : List ℝ) (baseline : Option (List ℕ)) (k : ℕ), 1 ≤ k →
      (hdr_to_gainmap_logs hdr_data baseline).length = 100 * k →
      98 * (hdr_to_gainmap_logs hdr_data baseline).length ≤
        100 * (hdr_to_gainmap_logs hdr_data baseline).countP
          (fun x => decide ((hdr_to_gainmap_range hdr_data baseline).1 ≤ x ∧
            x ≤ (hdr_to_gainmap_range hdr_data baseline).2))) ∧
    (∀ hdr_data : List ℝ,
      hdr_to_gainmap_logs hdr_data none =
        gainmap_log_list hdr_data
          ((reinhard_baseline_u8 hdr_data).map fun v => (v : ℝ) / 255)) := by
  have hrange : ∀ (hdr_data : List ℝ) (baseline : Option (List ℕ)),
      hdr_to_gainmap_range hdr_data baseline =
        (percentile (hdr_to_gainmap_logs hdr_data baseline) 1,
          percentile (hdr_to_gainmap_logs hdr_data baseline) 99) := fun _ _ => rfl
  refine ⟨hrange, ?_, ?_, fun hdr_data => rfl⟩
  · intro hdr_data baseline hlen
    simp only [hrange]
    exact percentile_coverage _ hlen
  · intro hdr_data baseline k hk hlen
    simp only [hrange]
    have h2 := percentile_coverage (hdr_to_gainmap_logs hdr_data baseline) (by omega)
    omega

/-- Witness for C7 (amended). -/
theorem hdr_to_gainmap_range_coverage_witness :
    98 * (hdr_to_gainmap_logs (List.replicate 100 1)
        (some (List.replicate 100 255))).length ≤
      100 * (hdr_to_gainmap_logs (List.replicate 100 1)
          (some (List.replicate 100 255))).countP
        (fun x => decide
          ((hdr_to_gainmap_range (List.replicate 100 1)
              (some (List.replicate 100 255))).1 ≤ x ∧
            x ≤ (hdr_to_gainmap_range (List.replicate 100 1)
              (some (List.replicate 100 255))).2)) :=
  hdr_to_gainmap_range_coverage.2.2.1 (List.replicate 100 1)
    (some (List.replicate 100 255)) 1 le_rfl
    (by simp [hdr_to_gainmap_logs, gainmap_log_list])

/-- C7 counterexample: with two pixels of HDR values `0` and `1` against a
white baseline, the two log2 gain samples are distinct, the 1st percentile
lies strictly above the smaller sample and the 99th strictly below the larger
one, so **zero** of the two samples lie within the declared range — far below
98%. -/
theorem hdr_to_gainmap_range_coverage_fails_two_pixels :
    ¬ (98 * (hdr_to_gainmap_logs [0, 1] (some [255, 255])).length ≤
        100 * (hdr_to_gainmap_logs [0, 1] (some [255, 255])).countP
          (fun x => decide ((hdr_to_gainmap_range [0, 1] (some [255, 255])).1 ≤ x ∧
            x ≤ (hdr_to_gainmap_range [0, 1] (some [255, 255])).2))) := by
  have hc0 : Real.logb 2 (1e-6 : ℝ) < 0 :=
    Real.logb_neg one_lt_two (by norm_num) (by norm_num)
  have hclip0 : clip (((0 : ℝ) + 1e-6) / (1 + 1e-6)) 1e-6 1000 = 1e-6 := by
    unfold clip
    rw [max_eq_right (by rw [div_le_iff₀ (by norm_num)]; norm_num)]
    exact min_eq_left (by norm_num)
  have hclip1 : clip (((1 : ℝ) + 1e-6) / (1 + 1e-6)) 1e-6 1000 = 1 := by
    rw [div_self (by norm_num)]
    exact clip_eq_self (by norm_num) (by norm_num)
  have hL : hdr_to_gainmap_logs [0, 1] (some [255, 255]) =
      [Real.logb 2 (1e-6 : ℝ), 0] := by
    show gainmap_log_list [0, 1] ([255, 255].map fun v : ℕ => (v : ℝ) / 255) = _
    rw [show ([255, 255].map fun v : ℕ => (v : ℝ) / 255) = [1, 1] by norm_num]
    show [Real.logb 2 (clip (((0 : ℝ) + 1e-6) / (1 + 1e-6)) 1e-6 1000),
      Real.logb 2 (clip (((1 : ℝ) + 1e-6) / (1 + 1e-6)) 1e-6 1000)] = _
    rw [hclip0, hclip1, Real.logb_one]
  have hsorted : List.insertionSort (· ≤ ·) [Real.logb 2 (1e-6 : ℝ), 0] =
      [Real.logb 2 (1e-6 : ℝ), 0] := by
    simp [List.insertionSort, List.orderedInsert, hc0.le]
  have hfloor1 : ⌊(1 : ℝ) / 100 *
      (([Real.logb 2 (1e-6 : ℝ), 0].length : ℝ) - 1)⌋₊ = 0 := by
    rw [Nat.floor_eq_zero]
    norm_num
  have hfloor99 : ⌊(99 : ℝ) / 100 *
      (([Real.logb 2 (1e-6 : ℝ), 0].length : ℝ) - 1)⌋₊ = 0 := by
    rw [Nat.floor_eq_zero]
    norm_num
  have hp1 : percentile [Real.logb 2 (1e-6 : ℝ), 0] 1 =
      Real.logb 2 (1e-6 : ℝ) * (99 / 100) := by
    simp only [percentile, hsorted, hfloor1]
    norm_num
    ring
  have hp99 : percentile [Real.logb 2 (1e-6 : ℝ), 0] 99 =
      Real.logb 2 (1e-6 : ℝ) * (1 / 100) := by
    simp only [percentile, hsorted, hfloor99]
    norm_num
    ring
  have hrange : hdr_to_gainmap_range [0, 1] (some [255, 255]) =
      (Real.logb 2 (1e-6 : ℝ) * (99 / 100), Real.logb 2 (1e-6 : ℝ) * (1 / 100)) := by
    show (percentile (hdr_to_gainmap_logs [0, 1] (some [255, 255])) 1,
      percentile (hdr_to_gainmap_logs [0, 1] (some [255, 255])) 99) = _
    rw [hL, hp1, hp99]
  rw [hL, hrange]
  have hnot1 : (decide (Real.logb 2 (1e-6 : ℝ) * (99 / 100) ≤ Real.logb 2 (1e-6 : ℝ) ∧
      Real.logb 2 (1e-6 : ℝ) ≤ Real.logb 2 (1e-6 : ℝ) * (1 / 100))) = false := by
    simp only [decide_eq_false_iff_not]
    intro hcon
    nlinarith [hcon.1]
  have hnot2 : (decide (Real.logb 2 (1e-6 : ℝ) * (99 / 100) ≤ (0 : ℝ) ∧
      (0 : ℝ) ≤ Real.logb 2 (1e-6 : ℝ) * (1 / 100))) = false := by
    simp only [decide_eq_false_iff_not]
    intro hcon
    nlinarith [hcon.2]
  simp only [List.countP_cons, List.countP_nil, hnot1, hnot2]
  norm_num

end HdrConv
